import Mathlib

/-!
Shallow embedding of the composition core and resource builders of the
`wysknd-aws-cf-generator` CloudFormation template library, together with
proofs about the embedded operations.

Conventions used throughout:

* JavaScript strings are Lean `String`s; an optional string argument whose
  JS call sites may omit it (`undefined`) is an `Option String`.
* A JS function that `throw`s is embedded as `Except String _` returning
  `.error msg` on the throwing paths, with the message copied from the
  source.  Since the state is passed functionally, a call that errors
  leaves the caller's state untouched by construction, exactly as the
  sources throw before performing any mutation.
* CloudFormation snippets (the values stored into `properties` fields) are
  embedded by the `RLeaf`/`RVal` datatypes below, which cover every shape
  the embedded functions emit: plain strings, `{Ref: name}` objects,
  `{'Fn::GetAtt': [target, attr]}` objects and `{'Fn::Join': ['', parts]}`
  objects whose parts are strings or `{Ref: name}` objects.
-/

/-- Modelled from the spec: `dir-info.js` is not part of the sources, only
its callers are.  A `DirInfo` is the position descriptor of one node of
the source hierarchy: an integer `level` and the ordered list of path
segments from the hierarchy root to the node. -/
structure DirInfo where
  level : Nat
  path : List String
deriving DecidableEq

/-- Modelled from the spec: the deterministic transliteration of one
character of a path segment into an identifier-safe character set.  The
path/prefix separator characters are escaped so that the token text of
distinct `(prefix, path)` pairs never collides. -/
def escChar (c : Char) : List Char :=
  if c = '_' then ['_', 'u'] else if c = ':' then ['_', 'c'] else [c]

/-- Transliteration of a whole path segment (as a character list). -/
def escList (l : List Char) : List Char :=
  l.flatMap escChar

/-- Modelled from the spec: the transliteration of a full path.  Each
segment is marked and escaped, and segments are joined with the
identifier-safe separator `_s`. -/
def joinCode : List String → List Char
  | [] => []
  | s :: t =>
    'g' :: escList s.data ++
      (match t with
       | [] => []
       | _ :: _ => '_' :: 's' :: joinCode t)

/-- Modelled from the spec: token text is a pure function of the
`(prefix, path)` pair — the scope/prefix string followed by the
transliterated path. -/
def mkToken (pfx : String) (segs : List String) : String :=
  ⟨pfx.data ++ ':' :: joinCode segs⟩

/-- Modelled from the spec: the path of the top-most ancestor of the node. -/
def DirInfo.ancestorPath (d : DirInfo) : List String :=
  d.path.take 1

/-- Modelled from the spec: `getToken(prefix)` (the self token) identifies
this node within the given prefix namespace. -/
def DirInfo.getToken (d : DirInfo) (pfx : String) : String :=
  mkToken pfx d.path

/-- Modelled from the spec: `getRootToken(scopeId)` identifies the
top-most ancestor construct for `scopeId`, regardless of the calling
node's depth. -/
def DirInfo.getRootToken (d : DirInfo) (scopeId : String) : String :=
  mkToken scopeId d.ancestorPath

/-- Modelled from the spec: `getParentToken(prefix)` identifies the
immediate-parent node; for a level-1 node the parent is the root
construct itself. -/
def DirInfo.getParentToken (d : DirInfo) (pfx : String) : String :=
  if d.level = 1 then d.getRootToken pfx else mkToken pfx d.path.dropLast

/-- The placeholder marker wrapped around a token expression, exactly the
text produced by the template literals of the sources. -/
def markerOf (x : String) : String :=
  ⟨'<' :: '%' :: ' ' :: (x.data ++ [' ', '%', '>'])⟩

/-- One element of an `Fn::Join` part list: a plain string or a
`{Ref: name}` object. -/
inductive RLeaf where
  | s (x : String)
  | r (name : String)
deriving DecidableEq

/-- A CloudFormation property value as emitted by the embedded functions. -/
inductive RVal where
  | str (s : String)
  | refv (s : String)
  | getAtt (target attr : String)
  | join (parts : List RLeaf)
deriving DecidableEq

/-- Extracts the body `X` of a leaf string of the exact marker form
`<% X %>`, and `none` for any other string. -/
def markerBody? (s : String) : Option String :=
  let l := s.data
  if 6 ≤ l.length ∧ l.take 3 = ['<', '%', ' '] ∧ l.drop (l.length - 3) = [' ', '%', '>'] then
    some ⟨(l.drop 3).take (l.length - 6)⟩
  else none

/-- The marker bodies occurring in one `Fn::Join` part. -/
def leafBodies (l : RLeaf) : List String :=
  match l with
  | .s x => (markerBody? x).toList
  | .r x => (markerBody? x).toList

/-- All placeholder-token bodies occurring in a property value. -/
def bodiesOf : RVal → List String
  | .str s => (markerBody? s).toList
  | .refv s => (markerBody? s).toList
  | .getAtt a b => (markerBody? a).toList ++ (markerBody? b).toList
  | .join parts => parts.flatMap leafBodies

/-- A token body is producible by the `DirInfo` token methods when it is
the token text of some `(prefix, path)` pair. -/
def producibleTok (x : String) : Prop :=
  ∃ pfx segs, x = mkToken pfx segs

/-- The JS default-scope-id substitution shared by the resource utilities:
an omitted argument or an empty string is replaced by the given default
literal (`typeof apiId !== 'string' || apiId.length <= 0`). -/
def scopeOr (apiId : Option String) (dflt : String) : String :=
  match apiId with
  | some s => if s.length = 0 then dflt else s
  | none => dflt

/-- `resourceUtils.getRestApi`, first bundled version (its default scope
id literal is `'DEFAULT_API'`). -/
def getRestApiV1 (d : DirInfo) (apiId : Option String) : RVal :=
  RVal.refv (markerOf (d.getRootToken (scopeOr apiId "DEFAULT_API")))

/-- `resourceUtils.getRestApi`, second bundled version (its default scope
id literal is `'API'`). -/
def getRestApiV2 (d : DirInfo) (apiId : Option String) : RVal :=
  RVal.refv (markerOf (d.getRootToken (scopeOr apiId "API")))

/-- `resourceUtils.getCurrentResource`: methods at level 1 roll up into
the api's root resource object. -/
def getCurrentResource (d : DirInfo) (apiId : Option String) : RVal :=
  let api := scopeOr apiId "API"
  if d.level = 1 then
    RVal.getAtt (markerOf (d.getRootToken api)) "RootResourceId"
  else
    RVal.refv (markerOf (d.getToken "RES"))

/-- `resourceUtils.getParentResource`: the reference to the parent
resource of the current entity. -/
def getParentResource (d : DirInfo) (apiId : Option String) : RVal :=
  let api := scopeOr apiId "API"
  if d.level = 2 then
    RVal.getAtt (markerOf (d.getRootToken api)) "RootResourceId"
  else
    RVal.refv (markerOf (d.getParentToken "RES"))

/-- `ResourceTemplate.setParentResource` assigns
`{Ref: '<% dirInfo.getParentToken('RES') %>'}` to `properties.ParentId`. -/
def resourceTemplateParentId (d : DirInfo) : RVal :=
  RVal.refv (markerOf (d.getParentToken "RES"))

/-- `startsWith pat l` is true when `pat` is an initial run of `l`
(the JS `indexOf` position test at one position). -/
def startsWithL (pat : List Char) : List Char → Bool
  | l =>
    match pat, l with
    | [], _ => true
    | _ :: _, [] => false
    | p :: ps, c :: cs => p = c && startsWithL ps cs

/-- `hasSub pat l` is the JS `l.indexOf(pat) !== -1` substring test. -/
def hasSub (pat : List Char) : List Char → Bool
  | [] => startsWithL pat []
  | c :: rest => startsWithL pat (c :: rest) || hasSub pat rest

/-- The JS `String.prototype.replace` with a plain-string pattern: only
the first occurrence of `pat` is replaced by `repl`. -/
def replaceFirstL (pat repl : List Char) : List Char → List Char
  | [] => []
  | c :: rest =>
    if startsWithL pat (c :: rest) then repl ++ (c :: rest).drop pat.length
    else c :: replaceFirstL pat repl rest

/-- `role.indexOf('$REGION') >= 0` of the two `getRoleUri` versions. -/
def roleHasRegion (role : String) : Bool :=
  hasSub "$REGION".data role.data

/-- `role.replace('$REGION', '')` of the two `getRoleUri` versions. -/
def roleDropRegion (role : String) : String :=
  ⟨replaceFirstL "$REGION".data [] role.data⟩

/-- `iamUtils.getRoleUri` as bundled in `iam-utils.js`: its injected
region reference is `{Ref: 'AWS:Region'}`. -/
def getRoleUriIam (role : String) : Except String RVal :=
  if role.length = 0 then .error "Invalid role name specified (arg #1)"
  else
    let regionTok : RLeaf :=
      if roleHasRegion role then .r "AWS:Region" else .s ""
    let roleName :=
      if roleHasRegion role then roleDropRegion role else role
    .ok (.join [.s "arn:aws:iam::", .r "AWS::AccountId", .s ":role/",
                regionTok, .s roleName])

/-- `iamUtils.getRoleUri` as bundled in `api-gateway-utils.js`: its
injected region reference is `{Ref: 'AWS::Region'}`. -/
def getRoleUriApigw (role : String) : Except String RVal :=
  if role.length = 0 then .error "Invalid role name specified (arg #1)"
  else
    let regionTok : RLeaf :=
      if roleHasRegion role then .r "AWS::Region" else .s ""
    let roleName :=
      if roleHasRegion role then roleDropRegion role else role
    .ok (.join [.s "arn:aws:iam::", .r "AWS::AccountId", .s ":role/",
                regionTok, .s roleName])

/-- The value stored by `getRoleUriIam` for a non-empty role (the sources
only reach the guard with non-empty role strings at the call sites
embedded below, so the successful branch is shared). -/
def roleUriIamVal (role : String) : RVal :=
  .join [.s "arn:aws:iam::", .r "AWS::AccountId", .s ":role/",
         (if roleHasRegion role then .r "AWS:Region" else .s ""),
         .s (if roleHasRegion role then roleDropRegion role else role)]

/-- `lambdaUtils.getLambdaUri(lambdaFunction, alias)`: the alias is
prefixed with ':' when it is a string and dropped otherwise. -/
def getLambdaUri (lambdaFunction : String) (aliasOpt : Option String) : RVal :=
  let aliasSfx :=
    match aliasOpt with
    | some a => ":" ++ a
    | none => ""
  .join [.s "arn:aws:lambda:", .r "AWS::Region", .s ":", .r "AWS::AccountId",
         .s (":function:" ++ lambdaFunction ++ aliasSfx)]

/-- `cognitoUtils.getUserPoolUri(userPoolId)`. -/
def getUserPoolUri (userPoolId : String) : RVal :=
  .join [.s "arn:aws:cognito-idp:", .r "AWS::Region", .s ":", .r "AWS::AccountId",
         .s (":userpool/" ++ userPoolId)]

/-- The `properties.Role` value installed by the `FunctionTemplate`
constructor: `_iamUtils.getRoleUri('<% lambda_execute_role %>')`. -/
def functionTemplateRole : RVal :=
  roleUriIamVal (markerOf "lambda_execute_role")

/-- The `properties.EventSourceArn` value installed by
`EventSourceMappingTemplate.setDynamoDbSourceByResource(tableKey)`. -/
def esmDynamoDbSourceArn (tableKey : String) : RVal :=
  RVal.getAtt (markerOf tableKey) "StreamArn"

/-- The default role marker of `AuthorizerTemplate.setAuthorizerLambda`:
`role = role || '<% authorizer_invoke_role %>'` (an omitted or empty
role falls back to the literal marker). -/
def authorizerRoleOr (role : Option String) : String :=
  match role with
  | some s => if s.length = 0 then markerOf "authorizer_invoke_role" else s
  | none => markerOf "authorizer_invoke_role"

/-- The `properties` record of an `AuthorizerTemplate`.  The JS field
`Type` is spelled `Type'` because `Type` is reserved in Lean; fields that
start out `undefined` are `Option`s. -/
structure AuthProperties where
  RestApiId : Option RVal
  Name : String
  AuthorizerCredentials : Option RVal
  AuthorizerUri : Option RVal
  AuthorizerResultTtlInSeconds : String
  Type' : Option String
  IdentitySource : String
  IdentityValidationExpression : Option String
  ProviderARNs : List RVal
deriving DecidableEq

/-- The initial `AuthorizerTemplate` properties for a model `name`. -/
def authInitProps (name : String) : AuthProperties :=
  { RestApiId := none
    Name := name
    AuthorizerCredentials := none
    AuthorizerUri := none
    AuthorizerResultTtlInSeconds := "300"
    Type' := none
    IdentitySource := "method.request.header.Authorization"
    IdentityValidationExpression := none
    ProviderARNs := [] }

/-- The JS `typeof v === 'string'` test applied to an optional property
value. -/
def isJsString : Option RVal → Bool
  | some (.str _) => true
  | _ => false

/-- `AuthorizerTemplate.setAuthorizerLambda(lambdaFunction, role)`. -/
def setAuthorizerLambda (p : AuthProperties) (lambdaFunction : String)
    (role : Option String) : Except String AuthProperties :=
  if p.ProviderARNs.length > 0 ∨ (p.Type' ≠ none ∧ p.Type' ≠ some "TOKEN") then
    .error "Attempt to redefine authorizer type. Currently defined as a user pool authorizer"
  else if lambdaFunction.length = 0 then
    .error "Invalid lambda function specified (arg #1)"
  else
    .ok { p with
          Type' := some "TOKEN"
          AuthorizerUri := some (getLambdaUri lambdaFunction (some "/invocations"))
          AuthorizerCredentials := some (roleUriIamVal (authorizerRoleOr role)) }

/-- `AuthorizerTemplate.addCognitoUserPool(userPoolId)`. -/
def addCognitoUserPool (p : AuthProperties) (userPoolId : String) :
    Except String AuthProperties :=
  if isJsString p.AuthorizerUri = true ∨ (p.Type' ≠ none ∧ p.Type' ≠ some "TOKEN") then
    .error "Attempt to redefine authorizer type. Currently defined as a custom token authorizer"
  else if userPoolId.length = 0 then
    .error "Invalid user pool id specified (arg #1)"
  else
    .ok { p with
          Type' := some "COGNITO_USER_POOLS"
          ProviderARNs := p.ProviderARNs ++ [getUserPoolUri userPoolId] }

/-- The provisioned-throughput record of a dynamo db table (capacities
are stored as decimal strings, as the sources call `.toString()`). -/
structure Throughput where
  ReadCapacityUnits : String
  WriteCapacityUnits : String
deriving DecidableEq

/-- One entry of a table's `KeySchema`. -/
structure KeySchemaEntry where
  AttributeName : String
  KeyType : String
deriving DecidableEq

/-- One entry of a table's `AttributeDefinitions`. -/
structure AttributeDef where
  AttributeName : String
  AttributeType : String
deriving DecidableEq

/-- The projection record of a secondary index. -/
structure IndexProjection where
  NonKeyAttributes : List String
  ProjectionType : String
deriving DecidableEq

/-- A local or global secondary index of a table (`ProvisionedThroughput`
is only present on global indexes). -/
structure TableIndex where
  IndexName : String
  KeySchema : List KeySchemaEntry
  Projection : IndexProjection
  ProvisionedThroughput : Option Throughput
deriving DecidableEq

/-- The `properties` record of a `TableTemplate`
(`StreamSpecification` starts out absent). -/
structure TableProperties where
  TableName : String
  AttributeDefinitions : List AttributeDef
  KeySchema : List KeySchemaEntry
  LocalSecondaryIndexes : List TableIndex
  GlobalSecondaryIndexes : List TableIndex
  ProvisionedThroughput : Throughput
  StreamSpecification : Option String
deriving DecidableEq

/-- The initial `TableTemplate` properties for a table name. -/
def tableInitProps (tableName : String) : TableProperties :=
  { TableName := tableName
    AttributeDefinitions := []
    KeySchema := []
    LocalSecondaryIndexes := []
    GlobalSecondaryIndexes := []
    ProvisionedThroughput := { ReadCapacityUnits := "5", WriteCapacityUnits := "5" }
    StreamSpecification := none }

/-- A JavaScript value as passed to the capacity setters.  Numbers are
embedded as integers plus the distinguished `nan` value; `typeof` is
`'number'` exactly for `num _` and `nan`.  The JS comparison `NaN <= 0`
is false, and `NaN.toString()` is `'NaN'`. -/
inductive JsVal where
  | num (n : Int)
  | nan
  | str (s : String)
  | boolVal (b : Bool)
  | undef
  | jsNull
deriving DecidableEq

/-- `TableTemplate.setReadCapacity(capacity)`: the guard is
`typeof capacity !== 'number' || capacity <= 0`; on success
`properties.ProvisionedThroughput.ReadCapacityUnits = capacity.toString()`
and the template itself is returned. -/
def setReadCapacity (p : TableProperties) (c : JsVal) : Except String TableProperties :=
  match c with
  | .num n =>
    if n ≤ 0 then .error "Invalid read capacity specified (arg #1)"
    else .ok { p with ProvisionedThroughput :=
                { p.ProvisionedThroughput with ReadCapacityUnits := toString n } }
  | .nan =>
    .ok { p with ProvisionedThroughput :=
            { p.ProvisionedThroughput with ReadCapacityUnits := "NaN" } }
  | _ => .error "Invalid read capacity specified (arg #1)"

/-- The exact throwing condition of `setReadCapacity`
(`typeof capacity !== 'number' || capacity <= 0`; note `NaN <= 0` is
false in JS, so `nan` does not throw). -/
def readCapacityThrows (c : JsVal) : Bool :=
  match c with
  | .num n => decide (n ≤ 0)
  | .nan => false
  | _ => true

/-- One `{Name, Value}` entry of a kinesis stream's `Tags` array. -/
structure Tag where
  Name : String
  Value : String
deriving DecidableEq

/-- `StreamTemplate.addTag(name, value)` on the `Tags` array: every entry
whose `Name` equals `name` has its `Value` overwritten in place, and if
no entry matched, `{Name: name, Value: value}` is pushed.  (Non-string
arguments throw before any mutation; the embedding takes the string-typed
domain the claims quantify over.)  `updTag` is the per-entry body of the
`forEach` mutation loop. -/
def updTag (name value : String) (t : Tag) : Tag :=
  if t.Name = name then { t with Value := value } else t

def addTag (tags : List Tag) (name value : String) : List Tag :=
  let updated := tags.map (updTag name value)
  if tags.any fun t => t.Name == name then updated else updated ++ [⟨name, value⟩]

/-- Modelled from the spec: the builder/registry sources
(`template-builder.js`) are not under `src/`.  An entity is a registered
resource record: a unique key, a kind tag, a property document, and the
source path of the fragment that produced it. -/
structure Entity where
  key : String
  kind : String
  propDoc : RVal
  srcPath : String
deriving DecidableEq

/-- Modelled from the spec: the error raised when a fragment registers a
key that already exists; it carries the duplicated key and both the new
and the previously registered fragment's source paths. -/
structure DuplicateKeyError where
  dupKey : String
  newPath : String
  existingPath : String
deriving DecidableEq

/-- Modelled from the spec: `register(entity)` fails with
`DuplicateKeyError` when `entity.key` is already present, and otherwise
appends the entity, preserving insertion order. -/
def register (reg : List Entity) (e : Entity) : Except DuplicateKeyError (List Entity) :=
  match reg.find? (fun x => x.key == e.key) with
  | some prev => .error ⟨e.key, e.srcPath, prev.srcPath⟩
  | none => .ok (reg ++ [e])

/-- Modelled from the spec: the AGGREGATE phase registers every entity
produced in discovery order, aborting on the first duplicate key. -/
def registerAll (reg : List Entity) : List Entity → Except DuplicateKeyError (List Entity)
  | [] => .ok reg
  | e :: rest =>
    match register reg e with
    | .error err => .error err
    | .ok reg' => registerAll reg' rest

/-- Modelled from the spec: building the registry of a fragment tree from
the entities the fragments emit, in traversal order. -/
def buildRegistry (frags : List Entity) : Except DuplicateKeyError (List Entity) :=
  registerAll [] frags

/-- The escape of a character is never empty. -/
theorem escChar_ne_nil (c : Char) : escChar c ≠ [] := by
  unfold escChar
  split_ifs <;> simp

/-- Escapes cancel at the head of a character stream: if two escaped
characters start the same stream they are the same character and the
remainders agree. -/
theorem escChar_cancel {c₁ c₂ : Char} {r₁ r₂ : List Char}
    (h : escChar c₁ ++ r₁ = escChar c₂ ++ r₂) : c₁ = c₂ ∧ r₁ = r₂ := by
  unfold escChar at h
  split_ifs at h with h1 h2 h3 h4 h5 h6 h7 <;> simp_all
  all_goals exact absurd h.1.symm (by assumption)

/-- The separator colon never occurs in an escaped segment. -/
theorem colon_not_mem_escList (l : List Char) : ':' ∉ escList l := by
  induction l with
  | nil => simp [escList]
  | cons c t ih =>
    intro hmem
    simp only [escList, List.flatMap_cons, List.mem_append] at hmem
    rcases hmem with hc | ht
    · revert hc
      unfold escChar
      split_ifs with h1 h2 <;> simp_all
      exact fun hh => h2 hh.symm
    · exact ih (by simpa [escList] using ht)

/-- The transliteration of a single-segment path. -/
theorem joinCode_single (s : String) : joinCode [s] = 'g' :: escList s.data := by
  show 'g' :: escList s.data ++ [] = _
  simp

/-- The transliteration of a path with at least two segments. -/
theorem joinCode_cons_cons (s u : String) (v : List String) :
    joinCode (s :: u :: v) =
      'g' :: escList s.data ++ ('_' :: 's' :: joinCode (u :: v)) := rfl

/-- The separator colon never occurs in a transliterated path. -/
theorem colon_not_mem_joinCode (segs : List String) : ':' ∉ joinCode segs := by
  induction segs with
  | nil => simp [joinCode]
  | cons s t ih =>
    intro hmem
    cases t with
    | nil =>
      rw [joinCode_single] at hmem
      rcases List.mem_cons.mp hmem with h | h
      · exact absurd h (by decide)
      · exact colon_not_mem_escList s.data h
    | cons u v =>
      rw [joinCode_cons_cons] at hmem
      simp only [List.cons_append, List.mem_cons, List.mem_append] at hmem
      rcases hmem with h | h | h | h | h
      · exact absurd h (by decide)
      · exact colon_not_mem_escList s.data h
      · exact absurd h (by decide)
      · exact absurd h (by decide)
      · exact ih h

/-- The shape the remainder stream has after a full escaped segment:
either the stream is over or a separator follows. -/
def sepOk (r : List Char) : Prop :=
  r = [] ∨ ∃ t, r = '_' :: 's' :: t

/-- A remainder of separator shape never starts with an escaped segment
of a non-empty raw segment. -/
theorem escList_nil_cancel {b : List Char} {r₁ r₂ : List Char}
    (h : r₁ = escList b ++ r₂) (hsep : sepOk r₁) : b = [] ∧ r₁ = r₂ := by
  cases b with
  | nil =>
    refine ⟨rfl, ?_⟩
    simpa [escList] using h
  | cons c bt =>
    exfalso
    simp only [escList, List.flatMap_cons, List.append_assoc] at h
    rcases hsep with hnil | ⟨t, ht⟩
    · rw [hnil] at h
      exact escChar_ne_nil c (List.append_eq_nil.mp h.symm).1
    · rw [ht] at h
      revert h
      unfold escChar
      split_ifs <;> simp_all
      exact fun hh => absurd hh.symm (by assumption)

/-- Escaped segments cancel against each other when each is followed by a
separator-shaped remainder. -/
theorem escList_cancel :
    ∀ (a : List Char) (b : List Char) (r₁ r₂ : List Char),
      escList a ++ r₁ = escList b ++ r₂ → sepOk r₁ → sepOk r₂ →
      a = b ∧ r₁ = r₂ := by
  intro a
  induction a with
  | nil =>
    intro b r₁ r₂ h hs₁ hs₂
    simp only [escList, List.flatMap_nil, List.nil_append] at h
    obtain ⟨hb, hr⟩ := escList_nil_cancel h hs₁
    exact ⟨hb.symm, hr⟩
  | cons c at' ih =>
    intro b r₁ r₂ h hs₁ hs₂
    cases b with
    | nil =>
      simp only [escList, List.flatMap_nil, List.nil_append] at h
      obtain ⟨hb, hr⟩ := escList_nil_cancel h.symm hs₂
      exact absurd hb (by simp)
    | cons c' bt =>
      simp only [escList, List.flatMap_cons, List.append_assoc] at h
      obtain ⟨hc, hrest⟩ := escChar_cancel h
      obtain ⟨hab, hr⟩ := ih bt r₁ r₂ hrest hs₁ hs₂
      exact ⟨by rw [hc, hab], hr⟩

/-- The transliteration of the empty path. -/
theorem joinCode_nil : joinCode [] = [] := rfl

/-- The transliteration of full paths is injective. -/
theorem joinCode_inj : ∀ (xs ys : List String), joinCode xs = joinCode ys → xs = ys := by
  intro xs
  induction xs with
  | nil =>
    intro ys h
    cases ys with
    | nil => rfl
    | cons y yt =>
      cases yt <;> simp [joinCode_nil, joinCode_single, joinCode_cons_cons] at h
  | cons x xt ih =>
    intro ys h
    cases ys with
    | nil =>
      cases xt <;> simp [joinCode_nil, joinCode_single, joinCode_cons_cons] at h
    | cons y yt =>
      cases xt with
      | nil =>
        cases yt with
        | nil =>
          rw [joinCode_single, joinCode_single] at h
          have h2 : escList x.data ++ ([] : List Char) = escList y.data ++ [] := by
            simpa using (List.cons.injEq _ _ _ _).mp h
          obtain ⟨hseg, -⟩ := escList_cancel _ _ _ _ h2 (Or.inl rfl) (Or.inl rfl)
          rw [String.ext hseg]
        | cons u v =>
          rw [joinCode_single, joinCode_cons_cons] at h
          have h2 : escList x.data ++ ([] : List Char) =
              escList y.data ++ ('_' :: 's' :: joinCode (u :: v)) := by
            simpa using (List.cons.injEq _ _ _ _).mp h
          obtain ⟨-, hr⟩ := escList_cancel _ _ _ _ h2 (Or.inl rfl)
            (Or.inr ⟨joinCode (u :: v), rfl⟩)
          simp at hr
      | cons a b =>
        cases yt with
        | nil =>
          rw [joinCode_cons_cons, joinCode_single] at h
          have h2 : escList x.data ++ ('_' :: 's' :: joinCode (a :: b)) =
              escList y.data ++ ([] : List Char) := by
            simpa using (List.cons.injEq _ _ _ _).mp h
          obtain ⟨-, hr⟩ := escList_cancel _ _ _ _ h2
            (Or.inr ⟨joinCode (a :: b), rfl⟩) (Or.inl rfl)
          simp at hr
        | cons u v =>
          rw [joinCode_cons_cons, joinCode_cons_cons] at h
          have h2 : escList x.data ++ ('_' :: 's' :: joinCode (a :: b)) =
              escList y.data ++ ('_' :: 's' :: joinCode (u :: v)) := by
            simpa using (List.cons.injEq _ _ _ _).mp h
          obtain ⟨hseg, hr⟩ := escList_cancel _ _ _ _ h2
            (Or.inr ⟨joinCode (a :: b), rfl⟩) (Or.inr ⟨joinCode (u :: v), rfl⟩)
          simp only [List.cons.injEq, true_and] at hr
          rw [String.ext hseg, ih (u :: v) hr]

/-- Splitting a character stream at a separator character that occurs in
neither left part is unambiguous. -/
theorem splitAtFirstColon :
    ∀ (y₁ y₂ t₁ t₂ : List Char),
      y₁ ++ ':' :: t₁ = y₂ ++ ':' :: t₂ → ':' ∉ y₁ → ':' ∉ y₂ →
      y₁ = y₂ ∧ t₁ = t₂ := by
  intro y₁
  induction y₁ with
  | nil =>
    intro y₂ t₁ t₂ h h₁ h₂
    cases y₂ with
    | nil => simpa using h
    | cons c l =>
      simp only [List.nil_append, List.cons_append, List.cons.injEq] at h
      exact absurd (h.1.symm ▸ List.mem_cons_self c l) h₂
  | cons c l ihl =>
    intro y₂ t₁ t₂ h h₁ h₂
    cases y₂ with
    | nil =>
      simp only [List.nil_append, List.cons_append, List.cons.injEq] at h
      exact absurd (h.1 ▸ List.mem_cons_self c l) h₁
    | cons c' l' =>
      simp only [List.cons_append, List.cons.injEq] at h
      have hl := ihl l' t₁ t₂ h.2 (fun hm => h₁ (List.mem_cons_of_mem c hm))
        (fun hm => h₂ (List.mem_cons_of_mem c' hm))
      exact ⟨by rw [h.1, hl.1], hl.2⟩

/-- Token derivation is injective in the `(prefix, path)` pair. -/
theorem mkToken_inj {p₁ p₂ : String} {s₁ s₂ : List String}
    (h : mkToken p₁ s₁ = mkToken p₂ s₂) : p₁ = p₂ ∧ s₁ = s₂ := by
  have hd : p₁.data ++ ':' :: joinCode s₁ = p₂.data ++ ':' :: joinCode s₂ := by
    have := congrArg String.data h
    simpa [mkToken] using this
  have hrev := congrArg List.reverse hd
  simp only [List.reverse_append, List.reverse_cons, List.append_assoc,
    List.singleton_append] at hrev
  have hsplit := splitAtFirstColon _ _ _ _ hrev
    (fun hm => colon_not_mem_joinCode s₁ (List.mem_reverse.mp hm))
    (fun hm => colon_not_mem_joinCode s₂ (List.mem_reverse.mp hm))
  refine ⟨String.ext (List.reverse_injective hsplit.2), ?_⟩
  exact joinCode_inj _ _ (List.reverse_injective hsplit.1)

/-- The separator colon always occurs in a derived token. -/
theorem colon_mem_mkToken (p : String) (s : List String) :
    ':' ∈ (mkToken p s).data := by
  simp [mkToken]

/-- Extracting the body of a well-formed marker returns the wrapped token
text. -/
theorem markerBody_markerOf (x : String) : markerBody? (markerOf x) = some x := by
  have hform : (markerOf x).data = ['<', '%', ' '] ++ (x.data ++ [' ', '%', '>']) := rfl
  have hlen : (markerOf x).data.length = x.data.length + 6 := by
    rw [hform]
    simp [List.length_append]
  have hc1 : 6 ≤ (markerOf x).data.length := by omega
  have hc2 : (markerOf x).data.take 3 = ['<', '%', ' '] := by
    rw [hform]
    exact List.take_left' rfl
  have hc3 : (markerOf x).data.drop ((markerOf x).data.length - 3) = [' ', '%', '>'] := by
    rw [hform, ← List.append_assoc]
    refine List.drop_left' ?_
    simp only [List.length_append, List.length_cons, List.length_nil]
    omega
  have hbody : ((markerOf x).data.drop 3).take ((markerOf x).data.length - 6) = x.data := by
    rw [hform, List.drop_left' (show (['<', '%', ' '] : List Char).length = 3 from rfl)]
    refine List.take_left' ?_
    simp only [List.length_append, List.length_cons, List.length_nil]
    omega
  simp only [markerBody?]
  rw [if_pos ⟨hc1, hc2, hc3⟩, hbody]

/-- The token bodies of a `{Ref: marker}` emission. -/
theorem bodiesOf_refv_marker (tok : String) :
    bodiesOf (RVal.refv (markerOf tok)) = [tok] := by
  simp [bodiesOf, markerBody_markerOf]

/-- The token bodies of a `{'Fn::GetAtt': [marker, 'RootResourceId']}`
emission. -/
theorem bodiesOf_getAtt_root (tok : String) :
    bodiesOf (RVal.getAtt (markerOf tok) "RootResourceId") = [tok] := by
  simp [bodiesOf, markerBody_markerOf]
  decide

/-- Every root token is producible by the token derivation. -/
theorem producible_getRootToken (d : DirInfo) (sid : String) :
    producibleTok (d.getRootToken sid) :=
  ⟨sid, d.ancestorPath, rfl⟩

/-- Every self token is producible by the token derivation. -/
theorem producible_getToken (d : DirInfo) (p : String) :
    producibleTok (d.getToken p) :=
  ⟨p, d.path, rfl⟩

/-- Every parent token is producible by the token derivation. -/
theorem producible_getParentToken (d : DirInfo) (p : String) :
    producibleTok (d.getParentToken p) := by
  unfold DirInfo.getParentToken
  by_cases h : d.level = 1
  · rw [if_pos h]
    exact producible_getRootToken d p
  · rw [if_neg h]
    exact ⟨p, d.path.dropLast, rfl⟩

/-- C1 (counterexample): at the valid level-1 node `/users`,
`getParentResource` does not return the root-construct
(`Fn::GetAtt`/`RootResourceId`) form the claim demands at the level-1
boundary — it returns the `Ref` form instead. -/
theorem claim1_parent_boundary_counterexample :
    (⟨1, ["users"]⟩ : DirInfo).level = 1 ∧
    getParentResource ⟨1, ["users"]⟩ (some "API") ≠
      RVal.getAtt (markerOf ((⟨1, ["users"]⟩ : DirInfo).getRootToken "API"))
        "RootResourceId" :=
  ⟨rfl, by decide⟩

/-- C1 (amended): `getParentResource` returns the root-construct form
(`Fn::GetAtt` of the root token with attribute `RootResourceId`) exactly
when the node's level is 2, and the `Ref` of `getParentToken('RES')` for
every other level. -/
theorem claim1_parent_boundary (d : DirInfo) (apiId : Option String) :
    (getParentResource d apiId =
        RVal.getAtt (markerOf (d.getRootToken (scopeOr apiId "API")))
          "RootResourceId" ↔ d.level = 2) ∧
    (d.level ≠ 2 →
      getParentResource d apiId = RVal.refv (markerOf (d.getParentToken "RES"))) := by
  unfold getParentResource
  by_cases h : d.level = 2 <;> simp [h]

/-- C1 (witness): the amended claim instantiated at the level-2 node
`/users/id`. -/
theorem claim1_parent_boundary_witness :
    getParentResource ⟨2, ["users", "id"]⟩ none =
      RVal.getAtt (markerOf ((⟨2, ["users", "id"]⟩ : DirInfo).getRootToken "API"))
        "RootResourceId" :=
  (claim1_parent_boundary ⟨2, ["users", "id"]⟩ none).1.mpr rfl

/-- C2 (counterexample): the `FunctionTemplate` constructor's `Role`
property carries the placeholder marker `<% lambda_execute_role %>`,
whose body is a fixed literal that no `(prefix, path)` token derivation
can produce (derived tokens always contain the separator colon). -/
theorem claim2_token_sources_counterexample :
    bodiesOf functionTemplateRole = ["lambda_execute_role"] ∧
    ¬ producibleTok "lambda_execute_role" := by
  refine ⟨by decide, ?_⟩
  rintro ⟨p, segs, h⟩
  have hmem := colon_mem_mkToken p segs
  rw [← h] at hmem
  exact absurd hmem (by decide)

/-- C2 (amended): the markers emitted by the resource utilities and by
`ResourceTemplate.setParentResource` enclose only `DirInfo`-derived token
text, but `FunctionTemplate`'s default `Role` embeds the fixed literal
`lambda_execute_role`, and
`EventSourceMappingTemplate.setDynamoDbSourceByResource` embeds the
caller-supplied table key. -/
theorem claim2_token_sources (d : DirInfo) (apiId : Option String) (b : String) :
    ((b ∈ bodiesOf (getRestApiV1 d apiId) ∨
      b ∈ bodiesOf (getRestApiV2 d apiId) ∨
      b ∈ bodiesOf (getCurrentResource d apiId) ∨
      b ∈ bodiesOf (getParentResource d apiId) ∨
      b ∈ bodiesOf (resourceTemplateParentId d)) → producibleTok b) ∧
    bodiesOf functionTemplateRole = ["lambda_execute_role"] ∧
    (∀ tableKey, bodiesOf (esmDynamoDbSourceArn tableKey) =
      [tableKey] ++ (markerBody? "StreamArn").toList) := by
  refine ⟨?_, by decide, ?_⟩
  · intro hmem
    rcases hmem with h | h | h | h | h
    · rw [getRestApiV1, bodiesOf_refv_marker, List.mem_singleton] at h
      rw [h]
      exact producible_getRootToken _ _
    · rw [getRestApiV2, bodiesOf_refv_marker, List.mem_singleton] at h
      rw [h]
      exact producible_getRootToken _ _
    · rw [getCurrentResource] at h
      by_cases hl : d.level = 1
      · rw [if_pos hl, bodiesOf_getAtt_root, List.mem_singleton] at h
        rw [h]
        exact producible_getRootToken _ _
      · rw [if_neg hl, bodiesOf_refv_marker, List.mem_singleton] at h
        rw [h]
        exact producible_getToken _ _
    · rw [getParentResource] at h
      by_cases hl : d.level = 2
      · rw [if_pos hl, bodiesOf_getAtt_root, List.mem_singleton] at h
        rw [h]
        exact producible_getRootToken _ _
      · rw [if_neg hl, bodiesOf_refv_marker, List.mem_singleton] at h
        rw [h]
        exact producible_getParentToken _ _
    · rw [resourceTemplateParentId, bodiesOf_refv_marker, List.mem_singleton] at h
      rw [h]
      exact producible_getParentToken _ _
  · intro tableKey
    rw [esmDynamoDbSourceArn]
    simp [bodiesOf, markerBody_markerOf]

/-- C2 (witness): the amended claim instantiated at the node `/users` and
the root token the first `getRestApi` version emits there. -/
theorem claim2_token_sources_witness :
    producibleTok (mkToken "MYAPI" ["users"]) :=
  (claim2_token_sources ⟨1, ["users"]⟩ (some "MYAPI") (mkToken "MYAPI" ["users"])).1
    (Or.inl (by decide))

/-- C3 (counterexample): with the api id omitted, the two bundled
`getRestApi` versions substitute different default scope-id literals
(`'DEFAULT_API'` versus `'API'`) and return different references. -/
theorem claim3_getRestApi_counterexample :
    getRestApiV1 ⟨1, ["users"]⟩ none ≠ getRestApiV2 ⟨1, ["users"]⟩ none := by
  decide

/-- C3 (amended): the two bundled `getRestApi` versions agree on every
explicitly supplied non-empty api id; they differ only in the default
scope-id literal substituted for an omitted or empty api id. -/
theorem claim3_getRestApi (d : DirInfo) (s : String) (h : s ≠ "") :
    getRestApiV1 d (some s) = getRestApiV2 d (some s) := by
  have hlen : s.length ≠ 0 := fun hl => h (String.ext (List.length_eq_zero.mp hl))
  simp [getRestApiV1, getRestApiV2, scopeOr, hlen]

/-- C3 (witness): the amended claim instantiated at the node `/users`
with the explicit api id `'MYAPI'`. -/
theorem claim3_getRestApi_witness :
    getRestApiV1 ⟨1, ["users"]⟩ (some "MYAPI") =
      getRestApiV2 ⟨1, ["users"]⟩ (some "MYAPI") :=
  claim3_getRestApi ⟨1, ["users"]⟩ "MYAPI" (by decide)

/-- C4: two `DirInfo` instances sharing the same ancestor path produce
byte-identical root-token text for the same scope id, regardless of
their levels. -/
theorem claim4_rootToken_depth_independent (d₁ d₂ : DirInfo) (scopeId : String)
    (h : d₁.ancestorPath = d₂.ancestorPath) :
    d₁.getRootToken scopeId = d₂.getRootToken scopeId := by
  unfold DirInfo.getRootToken
  rw [h]

/-- C4 (witness): the level-1 node `/users` and the level-2 node
`/users/id` share the ancestor path `['users']` and yield the same root
token for the scope id `'API'`. -/
theorem claim4_rootToken_witness :
    (⟨1, ["users"]⟩ : DirInfo).ancestorPath =
        (⟨2, ["users", "id"]⟩ : DirInfo).ancestorPath ∧
    (⟨1, ["users"]⟩ : DirInfo).getRootToken "API" =
        (⟨2, ["users", "id"]⟩ : DirInfo).getRootToken "API" :=
  ⟨by decide, claim4_rootToken_depth_independent ⟨1, ["users"]⟩ ⟨2, ["users", "id"]⟩
      "API" (by decide)⟩

/-- C5: token derivation is a pure injective function of the
`(prefix, path)` pair — distinct pairs never collide — and in particular
the self token of `/users` differs from that of `/orders` for the prefix
`'RES'`, and the prefixes `'RES'` and `'MET'` differ for the same path. -/
theorem claim5_token_injective :
    (∀ (p₁ : String) (s₁ : List String) (p₂ : String) (s₂ : List String),
        mkToken p₁ s₁ = mkToken p₂ s₂ → p₁ = p₂ ∧ s₁ = s₂) ∧
    DirInfo.getToken ⟨1, ["users"]⟩ "RES" ≠ DirInfo.getToken ⟨1, ["orders"]⟩ "RES" ∧
    DirInfo.getToken ⟨1, ["users"]⟩ "RES" ≠ DirInfo.getToken ⟨1, ["users"]⟩ "MET" :=
  ⟨fun _ _ _ _ h => mkToken_inj h, by decide, by decide⟩

/-- C5 (witness): the injectivity direction applied to a concrete token
equation. -/
theorem claim5_token_injective_witness :
    ("RES" : String) = "RES" ∧ (["users"] : List String) = ["users"] :=
  claim5_token_injective.1 "RES" ["users"] "RES" ["users"] rfl

/-- C7 (counterexample): the JS value `NaN` is of number type but is not
strictly greater than 0, yet `setReadCapacity` does not throw on it
(`NaN <= 0` is false), storing the string `'NaN'` instead. -/
theorem claim7_setReadCapacity_counterexample :
    setReadCapacity (tableInitProps "users-table") JsVal.nan =
      Except.ok { tableInitProps "users-table" with
                  ProvisionedThroughput :=
                    { ReadCapacityUnits := "NaN", WriteCapacityUnits := "5" } } ∧
    ¬ (∃ n : Int, JsVal.nan = JsVal.num n ∧ 0 < n) := by
  refine ⟨rfl, ?_⟩
  rintro ⟨n, h, -⟩
  cases h

/-- C7 (amended): `setReadCapacity` throws exactly when the argument is a
non-number or a number `n` with `n ≤ 0` (so `NaN`, which compares false
with `<=`, slips through the guard and stores `'NaN'`); on an integer
`n > 0` it stores the decimal string of `n` in
`ProvisionedThroughput.ReadCapacityUnits`, changes nothing else, and the
error paths leave the properties untouched. -/
theorem claim7_setReadCapacity (p : TableProperties) (c : JsVal) :
    ((∃ e, setReadCapacity p c = .error e) ↔ readCapacityThrows c = true) ∧
    (∀ n : Int, c = .num n → 0 < n →
      setReadCapacity p c =
        .ok { p with ProvisionedThroughput :=
                { p.ProvisionedThroughput with ReadCapacityUnits := toString n } }) ∧
    (c = .nan →
      setReadCapacity p c =
        .ok { p with ProvisionedThroughput :=
                { p.ProvisionedThroughput with ReadCapacityUnits := "NaN" } }) := by
  refine ⟨?_, ?_, ?_⟩
  · cases c <;> simp [setReadCapacity, readCapacityThrows]
    case num n =>
      by_cases h : n ≤ 0 <;> simp [h]
  · rintro n rfl hn
    rw [setReadCapacity, if_neg (by omega)]
  · rintro rfl
    rfl

/-- C7 (witness): the amended claim instantiated at a fresh table and the
capacity 25. -/
theorem claim7_setReadCapacity_witness :
    setReadCapacity (tableInitProps "t") (JsVal.num 25) =
      .ok { tableInitProps "t" with
            ProvisionedThroughput :=
              { (tableInitProps "t").ProvisionedThroughput with
                ReadCapacityUnits := toString (25 : Int) } } :=
  (claim7_setReadCapacity (tableInitProps "t") (JsVal.num 25)).2.1 25 rfl (by decide)

/-- Propositional equality of embedded `Except` results is decidable
when both components are. -/
instance instDecEqExcept {e a : Type} [DecidableEq e] [DecidableEq a] :
    DecidableEq (Except e a) := fun x y => by
  cases x <;> cases y
  case error.error u v =>
    exact if h : u = v then isTrue (by rw [h])
      else isFalse (fun hc => h (by injection hc))
  case ok.ok u v =>
    exact if h : u = v then isTrue (by rw [h])
      else isFalse (fun hc => h (by injection hc))
  case error.ok u v => exact isFalse (fun hc => Except.noConfusion hc)
  case ok.error u v => exact isFalse (fun hc => Except.noConfusion hc)

/-- C8: at a role containing the `$REGION` marker the two bundled
`getRoleUri` versions diverge — the `iam-utils.js` version injects the
misspelled pseudo parameter `{Ref: 'AWS:Region'}` while the copy bundled
with the api-gateway utilities injects `{Ref: 'AWS::Region'}`. -/
theorem claim8_getRoleUri_divergence :
    getRoleUriIam "$REGIONAdmin" =
      Except.ok (.join [.s "arn:aws:iam::", .r "AWS::AccountId", .s ":role/",
                        .r "AWS:Region", .s "Admin"]) ∧
    getRoleUriApigw "$REGIONAdmin" =
      Except.ok (.join [.s "arn:aws:iam::", .r "AWS::AccountId", .s ":role/",
                        .r "AWS::Region", .s "Admin"]) ∧
    getRoleUriIam "$REGIONAdmin" ≠ getRoleUriApigw "$REGIONAdmin" :=
  ⟨by decide, by decide, by decide⟩

/-- C9: starting from a fresh authorizer, `setAuthorizerLambda` followed
by `addCognitoUserPool` succeeds (the guard tests
`typeof AuthorizerUri === 'string'`, but the stored authorizer uri is an
`Fn::Join` object), leaving the properties in a mixed state:
`Type = 'COGNITO_USER_POOLS'` with the lambda `AuthorizerUri` still set
and `ProviderARNs` non-empty. -/
theorem claim9_authorizer_mixed_state :
    ∃ p₁ p₂ : AuthProperties,
      setAuthorizerLambda (authInitProps "MyAuthorizer") "authFn" none = .ok p₁ ∧
      addCognitoUserPool p₁ "pool1" = .ok p₂ ∧
      p₂.Type' = some "COGNITO_USER_POOLS" ∧
      p₂.AuthorizerUri ≠ none ∧
      p₂.ProviderARNs ≠ [] := by
  refine ⟨_, _, rfl, rfl, rfl, by decide, by decide⟩

/-- A successful registration run starting from a registry with distinct
keys ends with distinct keys over everything registered. -/
theorem registerAll_ok_nodup :
    ∀ (rest reg out : List Entity), registerAll reg rest = .ok out →
      (reg.map Entity.key).Nodup → ((reg ++ rest).map Entity.key).Nodup := by
  intro rest
  induction rest with
  | nil =>
    intro reg out _ hnd
    simpa using hnd
  | cons e rest ih =>
    intro reg out h hnd
    rw [registerAll] at h
    split at h
    · exact absurd h (by simp)
    · rename_i reg' heq
      rw [register] at heq
      split at heq
      · exact absurd heq (by simp)
      · rename_i hfind
        have hreg' : reg' = reg ++ [e] := by injection heq with h'; exact h'.symm
        have hkey : e.key ∉ reg.map Entity.key := by
          intro hmem
          obtain ⟨x, hx, hkx⟩ := List.mem_map.mp hmem
          have := List.find?_eq_none.mp hfind x hx
          simp [hkx] at this
        have hnd' : ((reg ++ [e]).map Entity.key).Nodup := by
          simp only [List.map_append, List.map_cons, List.map_nil]
          rw [List.nodup_append]
          exact ⟨hnd, List.nodup_singleton _, by simpa using hkey⟩
        have := ih (reg ++ [e]) out (hreg' ▸ h) hnd'
        simpa [List.append_assoc] using this

/-- A failed registration run produced its error from a pair of entities
with equal keys: the error carries the duplicated key, the source path of
the entity being registered and the source path of the previously
registered entity. -/
theorem registerAll_error_content :
    ∀ (rest reg : List Entity) (err : DuplicateKeyError),
      registerAll reg rest = .error err →
      ∃ a b : Entity, a ∈ reg ++ rest ∧ b ∈ rest ∧ a.key = b.key ∧
        err = ⟨b.key, b.srcPath, a.srcPath⟩ := by
  intro rest
  induction rest with
  | nil =>
    intro reg err h
    exact absurd h (by simp [registerAll])
  | cons e rest ih =>
    intro reg err h
    rw [registerAll] at h
    split at h
    · rename_i err' heq
      rw [register] at heq
      split at heq
      · rename_i prev hfind
        have herr : err = ⟨e.key, e.srcPath, prev.srcPath⟩ := by
          injection h with h'
          injection heq with h''
          rw [← h', ← h'']
        refine ⟨prev, e, ?_, List.mem_cons_self e rest, ?_, ?_⟩
        · exact List.mem_append_left _ (List.mem_of_find?_eq_some hfind)
        · simpa using List.find?_some hfind
        · exact herr
      · exact absurd heq (by simp)
    · rename_i reg' heq
      rw [register] at heq
      split at heq
      · exact absurd heq (by simp)
      · have hreg' : reg' = reg ++ [e] := by injection heq with h'; exact h'.symm
        obtain ⟨a, b, ha, hb, hk, he⟩ := ih (reg ++ [e]) err (hreg' ▸ h)
        refine ⟨a, b, ?_, List.mem_cons_of_mem e hb, hk, he⟩
        simpa [List.append_assoc] using ha

/-- C6: a fragment tree whose fragments emit a duplicated key fails the
build with a `DuplicateKeyError` naming both the newly registered and the
previously registered fragment's source paths, and no registry (hence no
composite document) is produced. -/
theorem claim6_duplicate_key (frags : List Entity)
    (hdup : ¬ (frags.map Entity.key).Nodup) :
    ∃ (err : DuplicateKeyError) (a b : Entity),
      buildRegistry frags = .error err ∧
      a ∈ frags ∧ b ∈ frags ∧ a.key = b.key ∧
      err = ⟨b.key, b.srcPath, a.srcPath⟩ := by
  cases hbuild : buildRegistry frags with
  | ok out =>
    exact absurd (by simpa using registerAll_ok_nodup frags [] out hbuild (by simp)) hdup
  | error err =>
    obtain ⟨a, b, ha, hb, hk, he⟩ := registerAll_error_content frags [] err hbuild
    exact ⟨err, a, b, rfl, by simpa using ha, hb, hk, he⟩

/-- C6 (witness): two fragments both emitting the key `'Foo'` from the
source paths `/users` and `/orders`. -/
theorem claim6_duplicate_key_witness :
    ∃ (err : DuplicateKeyError) (a b : Entity),
      buildRegistry [⟨"Foo", "AWS::ApiGateway::Resource", .str "x", "/users"⟩,
                     ⟨"Foo", "AWS::ApiGateway::Resource", .str "y", "/orders"⟩] = .error err ∧
      a ∈ [⟨"Foo", "AWS::ApiGateway::Resource", .str "x", "/users"⟩,
           ⟨"Foo", "AWS::ApiGateway::Resource", .str "y", "/orders"⟩] ∧
      b ∈ [⟨"Foo", "AWS::ApiGateway::Resource", .str "x", "/users"⟩,
           ⟨"Foo", "AWS::ApiGateway::Resource", .str "y", "/orders"⟩] ∧
      a.key = b.key ∧ err = ⟨b.key, b.srcPath, a.srcPath⟩ :=
  claim6_duplicate_key _ (by decide)

/-- The in-place value overwrite never changes an entry's name. -/
theorem updTag_name (n v : String) (t : Tag) : (updTag n v t).Name = t.Name := by
  unfold updTag
  split_ifs <;> rfl

/-- The mutation pass of `addTag` preserves the tag-name sequence. -/
theorem updTag_names (n v : String) (tags : List Tag) :
    (tags.map (updTag n v)).map Tag.Name = tags.map Tag.Name := by
  induction tags with
  | nil => rfl
  | cons t ts ih => simp [ih, updTag_name]

/-- The mutation pass of `addTag` is the identity when no entry matches. -/
theorem updTag_map_id (n v : String) (tags : List Tag)
    (h : ∀ t ∈ tags, ¬ t.Name = n) : tags.map (updTag n v) = tags := by
  induction tags with
  | nil => rfl
  | cons t ts ih =>
    rw [List.map_cons, ih (fun x hx => h x (List.mem_cons_of_mem t hx)),
      updTag, if_neg (h t (List.mem_cons_self t ts))]

/-- The mutation pass of `addTag` leaves entries with other names
unchanged. -/
theorem filter_not_name_updTag (n v : String) (tags : List Tag) :
    (tags.map (updTag n v)).filter (fun t => !(t.Name == n)) =
      tags.filter (fun t => !(t.Name == n)) := by
  induction tags with
  | nil => rfl
  | cons t ts ih =>
    by_cases h : t.Name = n
    · simp [updTag_name, h, ih]
    · simp [updTag, h, ih]

/-- Filtering for a name that occurs nowhere yields nothing. -/
theorem filter_name_no_match (n : String) (tags : List Tag)
    (h : ∀ t ∈ tags, ¬ t.Name = n) :
    tags.filter (fun t => t.Name == n) = [] := by
  induction tags with
  | nil => rfl
  | cons t ts ih =>
    simp [h t (List.mem_cons_self t ts),
      ih (fun x hx => h x (List.mem_cons_of_mem t hx))]

/-- Under per-name uniqueness, the mutation pass leaves exactly one entry
carrying the matched name, holding the new value. -/
theorem filter_name_updTag (n v : String) (tags : List Tag)
    (hnd : (tags.map Tag.Name).Nodup)
    (hany : (tags.any fun t => t.Name == n) = true) :
    (tags.map (updTag n v)).filter (fun t => t.Name == n) = [⟨n, v⟩] := by
  induction tags with
  | nil => simp at hany
  | cons t ts ih =>
    simp only [List.map_cons, List.nodup_cons] at hnd
    by_cases h : t.Name = n
    · have hts : ∀ x ∈ ts, ¬ x.Name = n := by
        intro x hx hxn
        exact hnd.1 (h ▸ hxn ▸ List.mem_map_of_mem Tag.Name hx)
      have hupd : updTag n v t = ⟨n, v⟩ := by
        rw [updTag, if_pos h]
        cases t
        simp_all
      have htail : (ts.map (updTag n v)).filter (fun t => t.Name == n) = [] := by
        refine filter_name_no_match n _ ?_
        intro x hx
        obtain ⟨y, hy, rfl⟩ := List.mem_map.mp hx
        rw [updTag_name]
        exact hts y hy
      simp [hupd, htail]
    · have hany' : (ts.any fun t => t.Name == n) = true := by
        simpa [h] using hany
      simp [updTag_name, h, ih hnd.2 hany']

/-- Overwriting a value twice is the same as overwriting once with the
final value. -/
theorem updTag_comp (n v v₁ : String) (t : Tag) :
    updTag n v (updTag n v₁ t) = updTag n v t := by
  obtain ⟨tn, tv⟩ := t
  unfold updTag
  by_cases h : tn = n <;> simp [h]

/-- The composed mutation pass collapses to a single pass. -/
theorem map_updTag_comp (n v v₁ : String) (tags : List Tag) :
    (tags.map (updTag n v₁)).map (updTag n v) = tags.map (updTag n v) := by
  induction tags with
  | nil => rfl
  | cons t ts ih => simp [updTag_comp, ih]

/-- The mutation pass preserves the match test. -/
theorem any_updTag (n v : String) (tags : List Tag) :
    ((tags.map (updTag n v)).any fun t => t.Name == n) =
      (tags.any fun t => t.Name == n) := by
  induction tags with
  | nil => rfl
  | cons t ts ih => simp [updTag_name, ih]

/-- The two branch shapes of `addTag`. -/
theorem addTag_eq_of_any (tags : List Tag) (n v : String)
    (hany : (tags.any fun t => t.Name == n) = true) :
    addTag tags n v = tags.map (updTag n v) := by
  rw [addTag]
  simp [hany]

/-- The push branch of `addTag`: with no matching entry the original list
is kept and the new entry appended. -/
theorem addTag_eq_of_not_any (tags : List Tag) (n v : String)
    (hany : ¬ (tags.any fun t => t.Name == n) = true)
    (hno : ∀ t ∈ tags, ¬ t.Name = n) :
    addTag tags n v = tags ++ [⟨n, v⟩] := by
  rw [addTag]
  simp only [hany, if_neg, updTag_map_id n v tags hno]
  simp [hany]

/-- C10: under per-name uniqueness of the `Tags` array, `addTag`
preserves uniqueness, leaves entries with other names unchanged, leaves
exactly one entry carrying the given name with the given value, and two
successive writes to the same name equal the last write alone. -/
theorem claim10_addTag (tags : List Tag) (name value v₁ : String)
    (h : (tags.map Tag.Name).Nodup) :
    ((addTag tags name value).map Tag.Name).Nodup ∧
    (addTag tags name value).filter (fun t => !(t.Name == name)) =
      tags.filter (fun t => !(t.Name == name)) ∧
    (addTag tags name value).filter (fun t => t.Name == name) = [⟨name, value⟩] ∧
    addTag (addTag tags name v₁) name value = addTag tags name value := by
  by_cases hany : (tags.any fun t => t.Name == name) = true
  · rw [addTag_eq_of_any tags name value hany, addTag_eq_of_any tags name v₁ hany]
    refine ⟨?_, ?_, ?_, ?_⟩
    · rw [updTag_names]
      exact h
    · exact filter_not_name_updTag name value tags
    · exact filter_name_updTag name value tags h hany
    · rw [addTag_eq_of_any _ name value (by rw [any_updTag]; exact hany)]
      exact map_updTag_comp name value v₁ tags
  · have hno : ∀ t ∈ tags, ¬ t.Name = name := by
      intro t ht hteq
      exact hany (List.any_eq_true.mpr ⟨t, ht, by simp [hteq]⟩)
    rw [addTag_eq_of_not_any tags name value hany hno,
      addTag_eq_of_not_any tags name v₁ hany hno]
    refine ⟨?_, ?_, ?_, ?_⟩
    · simp only [List.map_append, List.map_cons, List.map_nil]
      rw [List.nodup_append]
      refine ⟨h, List.nodup_singleton _, ?_⟩
      intro x hx
      obtain ⟨y, hy, rfl⟩ := List.mem_map.mp hx
      simpa using fun hc => hno y hy hc
    · rw [List.filter_append]
      simp [hno]
    · rw [List.filter_append, filter_name_no_match name tags hno]
      simp
    · have hany₂ : ((tags ++ [(⟨name, v₁⟩ : Tag)]).any fun t => t.Name == name) = true := by
        simp
      rw [addTag_eq_of_any _ name value hany₂, List.map_append,
        updTag_map_id name value tags hno]
      have : updTag name value ⟨name, v₁⟩ = ⟨name, value⟩ := by
        rw [updTag, if_pos rfl]
      simp [this]

/-- C10 (witness): the claim instantiated at a two-entry tag list with a
matching first entry. -/
theorem claim10_addTag_witness :
    ((addTag [⟨"env", "dev"⟩, ⟨"team", "x"⟩] "env" "prod").map Tag.Name).Nodup ∧
    (addTag [⟨"env", "dev"⟩, ⟨"team", "x"⟩] "env" "prod").filter
        (fun t => !(t.Name == "env")) =
      [⟨"env", "dev"⟩, ⟨"team", "x"⟩].filter (fun t => !(t.Name == "env")) ∧
    (addTag [⟨"env", "dev"⟩, ⟨"team", "x"⟩] "env" "prod").filter
        (fun t => t.Name == "env") = [⟨"env", "prod"⟩] ∧
    addTag (addTag [⟨"env", "dev"⟩, ⟨"team", "x"⟩] "env" "stage") "env" "prod" =
      addTag [⟨"env", "dev"⟩, ⟨"team", "x"⟩] "env" "prod" :=
  claim10_addTag [⟨"env", "dev"⟩, ⟨"team", "x"⟩] "env" "prod" "stage" (by decide)
